import Mathlib

/-!
Verification of the `typescript-vfs` virtual TypeScript environment
(`packages/typescript-vfs/src/index.ts`).

The development shallowly embeds the source module: the JavaScript `Map`
backing `createSystem` becomes an insertion-ordered association list, the
virtual compiler host and language-service host become explicit state
passing over `EnvState`, and the environment facade's `createFile` /
`updateFile` become functions on that state (`updateFile` returning
`Except`, since it can throw).  Calls into the external `typescript`
module (source-file construction, the language service's program) are
modelled from the specification and marked as such in their doc comments.
-/

namespace TsVfs

/-! ### JavaScript `Map` model

A JavaScript `Map` is an insertion-ordered collection of key/value pairs:
`set` overwrites in place when the key is present (keeping its position)
and appends otherwise; `keys()` enumerates in insertion order. -/

/-- JavaScript `Map.prototype.has`. -/
def mapHas {α : Type} (m : List (String × α)) (k : String) : Bool :=
  m.any (fun kv => kv.1 == k)

/-- JavaScript `Map.prototype.get` (`none` models `undefined`). -/
def mapGet {α : Type} (m : List (String × α)) (k : String) : Option α :=
  (m.find? (fun kv => kv.1 == k)).map (fun kv => kv.2)

/-- JavaScript `Map.prototype.set`: overwrite in place or append. -/
def mapSet {α : Type} (m : List (String × α)) (k : String) (v : α) :
    List (String × α) :=
  if mapHas m k then m.map (fun kv => if kv.1 == k then (k, v) else kv)
  else m ++ [(k, v)]

/-- JavaScript `Array.from(map.keys())`. -/
def mapKeys {α : Type} (m : List (String × α)) : List String :=
  m.map (fun kv => kv.1)

/-- JavaScript `String.prototype.startsWith`: `s` begins with `sought`. -/
def jsStartsWith (s sought : String) : Bool :=
  sought.data.isPrefixOf s.data

/-- JavaScript `s.slice(0, e)` for `0 <= e` (clamped at the end). -/
def jsSliceTo (s : String) (e : Nat) : String :=
  String.mk (s.data.take e)

/-- JavaScript `s.slice(b)` for `0 <= b` (clamped at the end). -/
def jsSliceFrom (s : String) (b : Nat) : String :=
  String.mk (s.data.drop b)

/-! ### The `System` over an in-memory store (`createSystem`)

`createSystem` closes over a private copy of the caller's map; the flat
store itself is the only state, so each operation is a function of the
store.  The deliberately unsupported operations (`createDirectory`,
`exit`, `write`, `getExecutingFilePath`) call `notImplemented`, which
throws before anything touches the store; they are embedded as functions
that return `Except.error` and never produce a successor store. -/

/-- Contents of an in-memory file store: path to text, insertion ordered. -/
abbrev FileStore := List (String × String)

/-- Message built by `notImplemented(methodName)` in the source. -/
def notImplementedMsg (methodName : String) : String :=
  "Method '" ++ methodName ++ "' is not implemented."

/-- Source `directoryExists`: some stored path starts with `directory`. -/
def sysDirectoryExists (files : FileStore) (directory : String) : Bool :=
  (mapKeys files).any (fun path => jsStartsWith path directory)

/-- Source `fileExists`. -/
def sysFileExists (files : FileStore) (fileName : String) : Bool :=
  mapHas files fileName

/-- Source `readDirectory`: every stored path at the root, else nothing. -/
def sysReadDirectory (files : FileStore) (directory : String) : List String :=
  if directory = "/" then mapKeys files else []

/-- Source `readFile`. -/
def sysReadFile (files : FileStore) (fileName : String) : Option String :=
  mapGet files fileName

/-- Source `writeFile`: create or fully replace. -/
def sysWriteFile (files : FileStore) (fileName contents : String) : FileStore :=
  mapSet files fileName contents

/-- Source `createDirectory`: throws via `notImplemented`, store untouched. -/
def sysCreateDirectory (files : FileStore) : Except String FileStore :=
  Except.error (notImplementedMsg "createDirectory")

/-- Source `exit`: throws via `notImplemented`, store untouched. -/
def sysExit (files : FileStore) : Except String FileStore :=
  Except.error (notImplementedMsg "exit")

/-- Source `write`: throws via `notImplemented`, store untouched. -/
def sysWrite (files : FileStore) : Except String FileStore :=
  Except.error (notImplementedMsg "write")

/-- Source `getExecutingFilePath`: throws via `notImplemented`. -/
def sysGetExecutingFilePath (files : FileStore) : Except String FileStore :=
  Except.error (notImplementedMsg "getExecutingFilePath")

/-! ### Heap model for the aliasing behaviour of `createSystem`

The line `files = new Map(files)` takes a private copy of the caller's
map.  Value semantics would hide that, so the copy is modelled against a
tiny heap of map references: `createSystem` allocates a fresh reference
holding a copy of the caller's map contents, and every subsequent system
operation dereferences only the fresh reference. -/

/-- A heap of JavaScript `Map` objects; a reference is an index. -/
structure Heap where
  maps : List (List (String × String))
  deriving DecidableEq

/-- Allocate a fresh map object, returning the heap and the new reference. -/
def Heap.alloc (h : Heap) (v : List (String × String)) : Heap × Nat :=
  (⟨h.maps ++ [v]⟩, h.maps.length)

/-- Dereference a map object. -/
def Heap.get (h : Heap) (r : Nat) : List (String × String) :=
  h.maps.getD r []

/-- Overwrite the map object behind a reference. -/
def Heap.put (h : Heap) (r : Nat) (v : List (String × String)) : Heap :=
  ⟨h.maps.set r v⟩

/-- The state a `createSystem` result closes over: its private map. -/
structure SystemRef where
  filesRef : Nat
  deriving DecidableEq

/-- Source `createSystem`: `files = new Map(files)` copies the caller's
map into a freshly allocated one, which the returned system closes over. -/
def createSystem (h : Heap) (caller : Nat) : Heap × SystemRef :=
  let allocated := h.alloc (h.get caller)
  (allocated.1, ⟨allocated.2⟩)

/-- Source `writeFile` acting through the system's map reference. -/
def heapWriteFile (h : Heap) (s : SystemRef) (fileName contents : String) :
    Heap :=
  h.put s.filesRef (mapSet (h.get s.filesRef) fileName contents)

/-- A batch of `writeFile` calls on the returned system. -/
def heapWriteAll (h : Heap) (s : SystemRef) (ws : List (String × String)) :
    Heap :=
  ws.foldl (fun acc kv => heapWriteFile acc s kv.1 kv.2) h

/-- External mutation of the caller's own map object (add, remove or
change entries: the new contents are arbitrary). -/
def heapMutate (h : Heap) (caller : Nat) (v : List (String × String)) : Heap :=
  h.put caller v

/-- Source `readFile` through the system's map reference. -/
def heapReadFile (h : Heap) (s : SystemRef) (fileName : String) :
    Option String :=
  mapGet (h.get s.filesRef) fileName

/-- Source `fileExists` through the system's map reference. -/
def heapFileExists (h : Heap) (s : SystemRef) (fileName : String) : Bool :=
  mapHas (h.get s.filesRef) fileName

/-- Source `directoryExists` through the system's map reference. -/
def heapDirectoryExists (h : Heap) (s : SystemRef) (directory : String) :
    Bool :=
  sysDirectoryExists (h.get s.filesRef) directory

/-- Source `readDirectory` through the system's map reference. -/
def heapReadDirectory (h : Heap) (s : SystemRef) (directory : String) :
    List String :=
  sysReadDirectory (h.get s.filesRef) directory

/-! ### Hosts and the environment facade

`createVirtualCompilerHost` keeps a parsed-source cache over the system;
`createVirtualLanguageServiceHost` adds file versions, a project version
and the root-file list; `createVirtualTypeScriptEnvironment` exposes
`createFile` and `updateFile`.  All of that mutable state is gathered in
`EnvState`. -/

/-- The engine's parsed unit: the model keeps the observable fields, file
name and full source text. -/
structure SourceFile where
  fileName : String
  text : String
  deriving DecidableEq

/-- A replacement range in previous-content coordinates. -/
structure TextSpan where
  start : Nat
  length : Nat
  deriving DecidableEq

/-- Combined state of system store, compiler-host cache and
language-service host. -/
structure EnvState where
  files : List (String × String)
  sourceFiles : List (String × SourceFile)
  fileVersions : List (String × String)
  projectVersion : Nat
  fileNames : List String
  deriving DecidableEq

/-- Modelled from the spec: `ts.createSourceFile` is part of the external
analysis engine (not in this repository); the parsed unit records the
file name and the full text it was parsed from. -/
def tsCreateSourceFile (fileName text : String) : SourceFile :=
  ⟨fileName, text⟩

/-- Modelled from the spec: `ts.updateSourceFile` is part of the external
analysis engine; the re-derived unit keeps the file name and carries the
new full text. -/
def tsUpdateSourceFile (prev : SourceFile) (newText : String)
    (change : TextSpan) : SourceFile :=
  ⟨prev.fileName, newText⟩

/-- State after `createVirtualLanguageServiceHost(sys, rootFiles, ...)`
over a fresh `createSystem(initialFiles)`: empty caches, project version
`0`, root list copied from `rootFiles`. -/
def initEnv (initialFiles : List (String × String)) (rootFiles : List String) :
    EnvState :=
  { files := initialFiles
    sourceFiles := []
    fileVersions := []
    projectVersion := 0
    fileNames := rootFiles }

/-- Compiler-host `updateFile`: record whether a cached unit existed,
write the text into the store, replace the cache entry. -/
def vHostUpdateFile (st : EnvState) (sourceFile : SourceFile) :
    Bool × EnvState :=
  let alreadyExists := mapHas st.sourceFiles sourceFile.fileName
  (alreadyExists,
    { st with
      files := mapSet st.files sourceFile.fileName sourceFile.text
      sourceFiles := mapSet st.sourceFiles sourceFile.fileName sourceFile })

/-- Language-service-host `updateFile`: bump the project version, stamp
the file's version token, append the path to the root list when new, then
delegate to the compiler-host `updateFile`. -/
def lsUpdateFile (st : EnvState) (sourceFile : SourceFile) : EnvState :=
  let bumped :=
    { st with
      projectVersion := st.projectVersion + 1
      fileVersions :=
        mapSet st.fileVersions sourceFile.fileName
          (Nat.repr (st.projectVersion + 1)) }
  let withRoot :=
    if bumped.fileNames.contains sourceFile.fileName then bumped
    else { bumped with fileNames := bumped.fileNames ++ [sourceFile.fileName] }
  (vHostUpdateFile withRoot sourceFile).2

/-- Host `getProjectVersion`: `projectVersion.toString()`. -/
def getProjectVersion (st : EnvState) : String :=
  Nat.repr st.projectVersion

/-- Host `getScriptVersion`: recorded token, else the `'0'` sentinel (the
JavaScript `||` also maps an empty-string token to the sentinel). -/
def getScriptVersion (st : EnvState) (fileName : String) : String :=
  match mapGet st.fileVersions fileName with
  | some v => if v = "" then "0" else v
  | none => "0"

/-- Host `getScriptSnapshot`: snapshot of the stored contents; the
JavaScript truthiness test `if (contents)` drops both a missing file and
an empty string. -/
def getScriptSnapshot (st : EnvState) (fileName : String) : Option String :=
  match sysReadFile st.files fileName with
  | some contents => if contents = "" then none else some contents
  | none => none

/-- Host `getScriptFileNames`: the root-file list. -/
def getScriptFileNames (st : EnvState) : List String :=
  st.fileNames

/-- Modelled from the spec: `languageService.getProgram().getSourceFile`
belongs to the external analysis engine.  The engine synchronizes its
program from the host on demand: it holds a source file for each path in
`getScriptFileNames()` whose `getScriptSnapshot` is available, with that
snapshot as its text, and nothing for any other path. -/
def programSourceFile (st : EnvState) (fileName : String) :
    Option SourceFile :=
  if st.fileNames.contains fileName then
    match getScriptSnapshot st fileName with
    | some text => some ⟨fileName, text⟩
    | none => none
  else none

/-- Facade `createFile`: parse the content fresh and route it through the
language-service host's `updateFile`. -/
def envCreateFile (st : EnvState) (fileName content : String) : EnvState :=
  lsUpdateFile st (tsCreateSourceFile fileName content)

/-- Error raised when `updateFile` dereferences a missing program source
file (`prevSourceFile!` on `undefined`). -/
def updateMissingMsg : String :=
  "Cannot read properties of undefined (reading 'text')"

/-- Facade `updateFile`: read the previous source file from the engine's
program (throwing when it is absent), splice the fragment into the prior
full text at the span, re-derive the unit, and route it through the
language-service host's `updateFile`. -/
def envUpdateFile (st : EnvState) (fileName content : String)
    (prevTextSpan : TextSpan) : Except String EnvState :=
  match programSourceFile st fileName with
  | none => Except.error updateMissingMsg
  | some prevSourceFile =>
    let prevFullContents := prevSourceFile.text
    let newText :=
      jsSliceTo prevFullContents prevTextSpan.start ++ content ++
        jsSliceFrom prevFullContents (prevTextSpan.start + prevTextSpan.length)
    let newSourceFile := tsUpdateSourceFile prevSourceFile newText prevTextSpan
    Except.ok (lsUpdateFile st newSourceFile)

/-- A mutating call on the environment facade. -/
inductive EnvOp where
  | create (fileName content : String)
  | update (fileName content : String) (span : TextSpan)
  deriving DecidableEq

/-- The path an operation targets. -/
def EnvOp.path : EnvOp → String
  | .create p _ => p
  | .update p _ _ => p

/-- Run one facade call; a thrown `updateFile` leaves the state as it
was. -/
def applyOp (st : EnvState) : EnvOp → EnvState
  | .create p c => envCreateFile st p c
  | .update p c s =>
    match envUpdateFile st p c s with
    | .ok st' => st'
    | .error _ => st

/-- Run a sequence of facade calls. -/
def applyOps (st : EnvState) (ops : List EnvOp) : EnvState :=
  ops.foldl applyOp st

/-- Project-version tokens observed through `getProjectVersion` right
after each call of a sequence of facade `createFile` calls. -/
def observedTokens (st : EnvState) : List (String × String) → List String
  | [] => []
  | c :: cs =>
    let st' := envCreateFile st c.1 c.2
    getProjectVersion st' :: observedTokens st' cs

/-! ### Library bootstrap resolver (`knownLibFilesForTarget`) -/

/-- The fixed, version-ordered catalog of library file names. -/
def knownLibFiles : List String :=
  ["lib.d.ts",
   "lib.dom.d.ts",
   "lib.dom.iterable.d.ts",
   "lib.es5.d.ts",
   "lib.es6.d.ts",
   "lib.es2015.collection.d.ts",
   "lib.es2015.core.d.ts",
   "lib.es2015.d.ts",
   "lib.es2015.generator.d.ts",
   "lib.es2015.iterable.d.ts",
   "lib.es2015.promise.d.ts",
   "lib.es2015.proxy.d.ts",
   "lib.es2015.reflect.d.ts",
   "lib.es2015.symbol.d.ts",
   "lib.es2015.symbol.wellknown.d.ts",
   "lib.es2016.array.include.d.ts",
   "lib.es2016.d.ts",
   "lib.es2016.full.d.ts",
   "lib.es2017.d.ts",
   "lib.es2017.full.d.ts",
   "lib.es2017.intl.d.ts",
   "lib.es2017.object.d.ts",
   "lib.es2017.sharedmemory.d.ts",
   "lib.es2017.string.d.ts",
   "lib.es2017.typedarrays.d.ts",
   "lib.es2018.asyncgenerator.d.ts",
   "lib.es2018.asynciterable.d.ts",
   "lib.es2018.d.ts",
   "lib.es2018.full.d.ts",
   "lib.es2018.intl.d.ts",
   "lib.es2018.promise.d.ts",
   "lib.es2018.regexp.d.ts",
   "lib.es2019.array.d.ts",
   "lib.es2019.d.ts",
   "lib.es2019.full.d.ts",
   "lib.es2019.object.d.ts",
   "lib.es2019.string.d.ts",
   "lib.es2019.symbol.d.ts",
   "lib.es2020.d.ts",
   "lib.es2020.full.d.ts",
   "lib.es2020.string.d.ts",
   "lib.es2020.symbol.wellknown.d.ts",
   "lib.esnext.array.d.ts",
   "lib.esnext.asynciterable.d.ts",
   "lib.esnext.bigint.d.ts",
   "lib.esnext.d.ts",
   "lib.esnext.full.d.ts",
   "lib.esnext.intl.d.ts",
   "lib.esnext.symbol.d.ts"]

/-- Modelled from the spec: the requested language-version targets of the
external engine's `ScriptTarget` enumeration. -/
inductive ScriptTarget where
  | es3 | es5 | es2015 | es2016 | es2017 | es2018 | es2019 | es2020 | esnext
  deriving DecidableEq

/-- Modelled from the spec: `ts.ScriptTarget[target].toLowerCase()` — the
external enumeration's reverse mapping, lower-cased. -/
def scriptTargetLowerName : ScriptTarget → String
  | .es3 => "es3"
  | .es5 => "es5"
  | .es2015 => "es2015"
  | .es2016 => "es2016"
  | .es2017 => "es2017"
  | .es2018 => "es2018"
  | .es2019 => "es2019"
  | .es2020 => "es2020"
  | .esnext => "esnext"

/-- Source `knownLibFilesForTarget`: filter the catalog by the
`lib.<target>` name beginning, take the last match, cut the catalog just
after its (first) occurrence.  When there is no match, JavaScript's
`indexOf(undefined)` yields `-1` and `slice(0, 0)` yields the empty
sequence. -/
def knownLibFilesForTarget (target : ScriptTarget) : List String :=
  let libMatches :=
    knownLibFiles.filter
      (fun f => jsStartsWith f ("lib." ++ scriptTargetLowerName target))
  match libMatches.getLast? with
  | none => []
  | some last =>
    let cutIndex := (knownLibFiles.findIdx? (fun f => f == last)).getD 0
    knownLibFiles.take (cutIndex + 1)

/-! ### Lemmas about the `Map` model -/

theorem find?_map_update_self {α : Type} (k : String) (v : α) :
    ∀ m : List (String × α), mapHas m k = true →
      (m.map (fun kv => if kv.1 == k then (k, v) else kv)).find?
        (fun kv => kv.1 == k) = some (k, v) := by
  intro m
  induction m with
  | nil => intro h; simp [mapHas] at h
  | cons a t ih =>
    intro h
    by_cases ha : (a.1 == k) = true
    · simp only [List.map_cons, if_pos ha]
      simp [List.find?]
    · have ha' : (a.1 == k) = false := by simpa using ha
      have ht : mapHas t k = true := by
        unfold mapHas at h
        simp only [List.any_cons, ha', Bool.false_or] at h
        exact h
      simp only [List.map_cons, if_neg ha]
      simp only [List.find?, ha']
      exact ih ht

theorem find?_map_update_ne {α : Type} {k k' : String} (v : α) (hne : k' ≠ k) :
    ∀ m : List (String × α),
      (m.map (fun kv => if kv.1 == k then (k, v) else kv)).find?
        (fun kv => kv.1 == k') = m.find? (fun kv => kv.1 == k') := by
  intro m
  induction m with
  | nil => rfl
  | cons a t ih =>
    by_cases ha : (a.1 == k) = true
    · have ha' : a.1 = k := by simpa using ha
      have hk : (k == k') = false := beq_eq_false_iff_ne.mpr (Ne.symm hne)
      have hak : (a.1 == k') = false := by
        rw [ha']
        exact beq_eq_false_iff_ne.mpr (Ne.symm hne)
      simp only [List.map_cons, if_pos ha]
      simp only [List.find?, hk, hak]
      exact ih
    · simp only [List.map_cons, if_neg ha]
      cases hpa : (a.1 == k') with
      | true => simp only [List.find?, hpa]
      | false =>
        simp only [List.find?, hpa]
        exact ih

theorem find?_eq_none_of_not_has {α : Type} (m : List (String × α))
    (k : String) (h : mapHas m k = false) :
    m.find? (fun kv => kv.1 == k) = none := by
  rw [List.find?_eq_none]
  intro kv hkv hbeq
  have : mapHas m k = true := by
    unfold mapHas
    rw [List.any_eq_true]
    exact ⟨kv, hkv, hbeq⟩
  simp [this] at h

theorem mapGet_mapSet_self {α : Type} (m : List (String × α)) (k : String)
    (v : α) : mapGet (mapSet m k v) k = some v := by
  unfold mapGet mapSet
  by_cases h : mapHas m k = true
  · rw [if_pos h, find?_map_update_self k v m h]
    rfl
  · rw [if_neg (by simp [h]), List.find?_append,
      find?_eq_none_of_not_has m k (by simpa using h)]
    simp

theorem mapGet_mapSet_ne {α : Type} (m : List (String × α)) {k k' : String}
    (v : α) (hne : k' ≠ k) : mapGet (mapSet m k v) k' = mapGet m k' := by
  unfold mapGet mapSet
  by_cases h : mapHas m k = true
  · rw [if_pos h, find?_map_update_ne v hne m]
  · rw [if_neg (by simp [h]), List.find?_append]
    have hk : (k == k') = false := beq_eq_false_iff_ne.mpr (Ne.symm hne)
    have hsingle : [(k, v)].find? (fun kv => kv.1 == k') = none := by
      simp only [List.find?, hk]
    rw [hsingle]
    simp

/-! ### Decimal representation: `Nat.repr` is injective

`getProjectVersion` and the file version tokens are produced by
`projectVersion.toString()`; distinctness of the observed tokens reduces
to injectivity of the decimal representation, proved here from the fuel
recursion of `Nat.toDigitsCore`. -/

theorem digitChar_inj_below_ten :
    ∀ a, a < 10 → ∀ b, b < 10 → Nat.digitChar a = Nat.digitChar b → a = b := by
  decide

theorem toDigitsCore_acc :
    ∀ (f n : Nat) (ds : List Char), n < f →
      Nat.toDigitsCore 10 f n ds = Nat.toDigitsCore 10 f n [] ++ ds := by
  intro f
  induction f with
  | zero => intro n ds h; omega
  | succ f ih =>
    intro n ds h
    by_cases hdiv : n / 10 = 0
    · simp [Nat.toDigitsCore, hdiv]
    · have h1 : 0 < n := by
        rcases Nat.eq_zero_or_pos n with h0 | h0
        · subst h0; simp at hdiv
        · exact h0
      have h2 : n / 10 < n := Nat.div_lt_self h1 (by omega)
      have h3 : n / 10 < f := by omega
      simp only [Nat.toDigitsCore, hdiv, if_false]
      rw [ih (n / 10) (Nat.digitChar (n % 10) :: ds) h3,
        ih (n / 10) [Nat.digitChar (n % 10)] h3, List.append_assoc]
      rfl

theorem toDigitsCore_fuel :
    ∀ (f1 f2 n : Nat) (ds : List Char), n < f1 → n < f2 →
      Nat.toDigitsCore 10 f1 n ds = Nat.toDigitsCore 10 f2 n ds := by
  intro f1
  induction f1 with
  | zero => intro f2 n ds h1 h2; omega
  | succ f1 ih =>
    intro f2 n ds h1 h2
    cases f2 with
    | zero => omega
    | succ f2 =>
      by_cases hdiv : n / 10 = 0
      · simp [Nat.toDigitsCore, hdiv]
      · have h0 : 0 < n := by
          rcases Nat.eq_zero_or_pos n with hz | hp
          · subst hz; simp at hdiv
          · exact hp
        have hlt : n / 10 < n := Nat.div_lt_self h0 (by omega)
        simp only [Nat.toDigitsCore, hdiv, if_false]
        exact ih f2 (n / 10) _ (by omega) (by omega)

theorem toDigits_below_ten (n : Nat) (h : n < 10) :
    Nat.toDigits 10 n = [Nat.digitChar n] := by
  have hdiv : n / 10 = 0 := Nat.div_eq_of_lt h
  have hmod : n % 10 = n := Nat.mod_eq_of_lt h
  simp [Nat.toDigits, Nat.toDigitsCore, hdiv, hmod]

theorem toDigits_ge_ten (n : Nat) (h : 10 ≤ n) :
    Nat.toDigits 10 n =
      Nat.toDigits 10 (n / 10) ++ [Nat.digitChar (n % 10)] := by
  have hdiv : ¬ n / 10 = 0 := by
    have : 1 ≤ n / 10 := (Nat.le_div_iff_mul_le (by omega)).mpr (by omega)
    omega
  have hlt : n / 10 < n := Nat.div_lt_self (by omega) (by omega)
  unfold Nat.toDigits
  simp only [Nat.toDigitsCore, hdiv, if_false]
  rw [toDigitsCore_acc n (n / 10) [Nat.digitChar (n % 10)] (by omega)]
  rw [toDigitsCore_fuel n (n / 10 + 1) (n / 10) [] (by omega) (by omega)]
  congr 1

theorem toDigits_ne_nil (n : Nat) : Nat.toDigits 10 n ≠ [] := by
  rcases Nat.lt_or_ge n 10 with h | h
  · simp [toDigits_below_ten n h]
  · simp [toDigits_ge_ten n h]

theorem toDigits_ten_injective :
    ∀ m n : Nat, Nat.toDigits 10 m = Nat.toDigits 10 n → m = n := by
  intro m
  induction m using Nat.strong_induction_on with
  | _ m ih =>
    intro n heq
    rcases Nat.lt_or_ge m 10 with hm | hm <;> rcases Nat.lt_or_ge n 10 with hn | hn
    · rw [toDigits_below_ten m hm, toDigits_below_ten n hn] at heq
      exact digitChar_inj_below_ten m hm n hn (List.singleton_injective heq)
    · rw [toDigits_below_ten m hm, toDigits_ge_ten n hn] at heq
      have hlen := congrArg List.length heq
      have hpos : 0 < (Nat.toDigits 10 (n / 10)).length :=
        List.length_pos.mpr (toDigits_ne_nil (n / 10))
      simp only [List.length_append, List.length_cons, List.length_nil] at hlen
      omega
    · rw [toDigits_ge_ten m hm, toDigits_below_ten n hn] at heq
      have hlen := congrArg List.length heq
      have hpos : 0 < (Nat.toDigits 10 (m / 10)).length :=
        List.length_pos.mpr (toDigits_ne_nil (m / 10))
      simp only [List.length_append, List.length_cons, List.length_nil] at hlen
      omega
    · rw [toDigits_ge_ten m hm, toDigits_ge_ten n hn] at heq
      obtain ⟨hinit, hlast⟩ := List.append_inj' heq (by simp)
      have hdiv : m / 10 = n / 10 :=
        ih (m / 10) (Nat.div_lt_self (by omega) (by omega)) (n / 10) hinit
      have hmod : m % 10 = n % 10 :=
        digitChar_inj_below_ten (m % 10) (Nat.mod_lt m (by omega)) (n % 10)
          (Nat.mod_lt n (by omega)) (List.singleton_injective hlast)
      omega

theorem natRepr_injective : ∀ m n : Nat, Nat.repr m = Nat.repr n → m = n := by
  intro m n h
  unfold Nat.repr at h
  exact toDigits_ten_injective m n (by
    have := congrArg String.data h
    simpa [List.asString] using this)

/-! ### Component lemmas about the host update path -/

theorem lsUpdateFile_projectVersion (st : EnvState) (sf : SourceFile) :
    (lsUpdateFile st sf).projectVersion = st.projectVersion + 1 := by
  simp only [lsUpdateFile, vHostUpdateFile]
  split <;> rfl

theorem lsUpdateFile_files (st : EnvState) (sf : SourceFile) :
    (lsUpdateFile st sf).files = mapSet st.files sf.fileName sf.text := by
  simp only [lsUpdateFile, vHostUpdateFile]
  split <;> rfl

theorem lsUpdateFile_fileVersions (st : EnvState) (sf : SourceFile) :
    (lsUpdateFile st sf).fileVersions =
      mapSet st.fileVersions sf.fileName (Nat.repr (st.projectVersion + 1)) := by
  simp only [lsUpdateFile, vHostUpdateFile]
  split <;> rfl

theorem lsUpdateFile_sourceFiles (st : EnvState) (sf : SourceFile) :
    (lsUpdateFile st sf).sourceFiles =
      mapSet st.sourceFiles sf.fileName sf := by
  simp only [lsUpdateFile, vHostUpdateFile]
  split <;> rfl

theorem lsUpdateFile_fileNames (st : EnvState) (sf : SourceFile) :
    (lsUpdateFile st sf).fileNames =
      if st.fileNames.contains sf.fileName then st.fileNames
      else st.fileNames ++ [sf.fileName] := by
  simp only [lsUpdateFile, vHostUpdateFile]
  split <;> simp_all

theorem programSourceFile_fileName (st : EnvState) (fn : String)
    (sf : SourceFile) (h : programSourceFile st fn = some sf) :
    sf = ⟨fn, sf.text⟩ := by
  unfold programSourceFile at h
  split at h
  · split at h
    · cases h; rfl
    · cases h
  · cases h

theorem envUpdateFile_ok_shape (st : EnvState) (p c : String) (sp : TextSpan)
    (st' : EnvState) (h : envUpdateFile st p c sp = Except.ok st') :
    ∃ t, st' = lsUpdateFile st ⟨p, t⟩ := by
  unfold envUpdateFile at h
  cases hp : programSourceFile st p with
  | none => rw [hp] at h; cases h
  | some prev =>
    rw [hp] at h
    have hfn : prev.fileName = p :=
      congrArg SourceFile.fileName (programSourceFile_fileName st p prev hp)
    have h' :
        lsUpdateFile st
          (tsUpdateSourceFile prev
            (jsSliceTo prev.text sp.start ++ c ++
              jsSliceFrom prev.text (sp.start + sp.length)) sp) = st' :=
      Except.ok.inj h
    refine ⟨jsSliceTo prev.text sp.start ++ c ++
      jsSliceFrom prev.text (sp.start + sp.length), ?_⟩
    rw [← h']
    simp only [tsUpdateSourceFile]
    rw [hfn]

theorem envCreateFile_eq (st : EnvState) (p c : String) :
    envCreateFile st p c = lsUpdateFile st ⟨p, c⟩ := rfl

theorem applyOp_projectVersion_mono (st : EnvState) (op : EnvOp) :
    st.projectVersion ≤ (applyOp st op).projectVersion := by
  cases op with
  | create p c =>
    simp only [applyOp, envCreateFile_eq, lsUpdateFile_projectVersion]
    omega
  | update p c s =>
    simp only [applyOp]
    cases hu : envUpdateFile st p c s with
    | error e => exact Nat.le_refl _
    | ok st' =>
      obtain ⟨t, rfl⟩ := envUpdateFile_ok_shape st p c s st' hu
      rw [lsUpdateFile_projectVersion]
      omega

theorem applyOps_projectVersion_mono (ops : List EnvOp) :
    ∀ st : EnvState, st.projectVersion ≤ (applyOps st ops).projectVersion := by
  induction ops with
  | nil => intro st; exact Nat.le_refl _
  | cons op ops ih =>
    intro st
    calc st.projectVersion ≤ (applyOp st op).projectVersion :=
          applyOp_projectVersion_mono st op
      _ ≤ (applyOps (applyOp st op) ops).projectVersion := ih (applyOp st op)

theorem applyOp_fileVersions_none (st : EnvState) (op : EnvOp) (P : String)
    (hne : op.path ≠ P) (h : mapGet st.fileVersions P = none) :
    mapGet (applyOp st op).fileVersions P = none := by
  cases op with
  | create p c =>
    have hpne : P ≠ p := fun hh => hne (by simp [EnvOp.path, hh])
    simp only [applyOp, envCreateFile_eq, lsUpdateFile_fileVersions]
    rw [mapGet_mapSet_ne _ _ hpne]
    exact h
  | update p c s =>
    have hpne : P ≠ p := fun hh => hne (by simp [EnvOp.path, hh])
    simp only [applyOp]
    cases hu : envUpdateFile st p c s with
    | error e => exact h
    | ok st' =>
      obtain ⟨t, rfl⟩ := envUpdateFile_ok_shape st p c s st' hu
      rw [lsUpdateFile_fileVersions]
      rw [mapGet_mapSet_ne _ _ hpne]
      exact h

theorem applyOp_fileNames_mono (st : EnvState) (op : EnvOp) (P : String)
    (h : P ∈ st.fileNames) : P ∈ (applyOp st op).fileNames := by
  cases op with
  | create p c =>
    simp only [applyOp, envCreateFile_eq, lsUpdateFile_fileNames]
    split
    · exact h
    · exact List.mem_append_left _ h
  | update p c s =>
    simp only [applyOp]
    cases hu : envUpdateFile st p c s with
    | error e => exact h
    | ok st' =>
      obtain ⟨t, rfl⟩ := envUpdateFile_ok_shape st p c s st' hu
      rw [lsUpdateFile_fileNames]
      split
      · exact h
      · exact List.mem_append_left _ h

theorem lsUpdateFile_fileNames_nodup (st : EnvState) (sf : SourceFile)
    (h : st.fileNames.Nodup) : (lsUpdateFile st sf).fileNames.Nodup := by
  rw [lsUpdateFile_fileNames]
  split
  · exact h
  · next hc =>
    rw [List.nodup_append]
    refine ⟨h, List.nodup_singleton _, ?_⟩
    intro a ha hb
    have : a = sf.fileName := by simpa using hb
    subst this
    exact hc (by simpa using ha)

theorem lsUpdateFile_fileNames_mem (st : EnvState) (sf : SourceFile) :
    sf.fileName ∈ (lsUpdateFile st sf).fileNames := by
  rw [lsUpdateFile_fileNames]
  split
  · next hc => simpa using hc
  · exact List.mem_append_right _ (by simp)

/-! ### Heap lemmas -/

theorem heapGet_put_ne (h : Heap) (r r' : Nat) (v : List (String × String))
    (hne : r' ≠ r) : (h.put r v).get r' = h.get r' := by
  unfold Heap.put Heap.get
  simp only [List.getD_eq_getElem?_getD]
  rw [List.getElem?_set_ne (Ne.symm hne)]

theorem heapWriteAll_get_ne (s : SystemRef) (r : Nat) (hne : r ≠ s.filesRef) :
    ∀ (ws : List (String × String)) (h : Heap),
      (heapWriteAll h s ws).get r = h.get r := by
  intro ws
  induction ws with
  | nil => intro h; rfl
  | cons w ws ih =>
    intro h
    rw [show heapWriteAll h s (w :: ws) =
      heapWriteAll (heapWriteFile h s w.1 w.2) s ws from rfl]
    rw [ih (heapWriteFile h s w.1 w.2)]
    unfold heapWriteFile
    exact heapGet_put_ne _ _ _ _ hne

/-! ### Observed project-version tokens -/

theorem observedTokens_formula (calls : List (String × String)) :
    ∀ st : EnvState,
      observedTokens st calls =
        (List.range calls.length).map
          (fun i => Nat.repr (st.projectVersion + i + 1)) := by
  induction calls with
  | nil => intro st; rfl
  | cons c cs ih =>
    intro st
    have hpv : (envCreateFile st c.1 c.2).projectVersion =
        st.projectVersion + 1 := by
      rw [envCreateFile_eq, lsUpdateFile_projectVersion]
    simp only [observedTokens, List.length_cons, List.range_succ_eq_map,
      List.map_cons, List.map_map]
    refine congrArg₂ List.cons ?_ ?_
    · simp [getProjectVersion, hpv]
    · rw [ih (envCreateFile st c.1 c.2)]
      refine List.map_congr_left ?_
      intro a ha
      simp only [Function.comp_apply, hpv]
      congr 1
      omega

/-! ### The claims -/

/-- C1 (corrected: the prior stored content must be nonempty).  For every
path `P` with prior stored content `T ≠ ""` known to the engine's program,
fragment `F` and span `S` with `S.start + S.length ≤ len T`, the facade's
`updateFile P F S` produces exactly the state `createFile P
(T[0:S.start] ++ F ++ T[S.start+S.length:])` produces — in particular the
same final stored content for `P`, the splice of `F` into the prior full
text in prior-content coordinates. -/
theorem claim1_incremental_patch_equivalence (st : EnvState) (P T F : String)
    (S : TextSpan) (hmem : P ∈ st.fileNames)
    (hget : mapGet st.files P = some T) (hne : T ≠ "")
    (hspan : S.start + S.length ≤ T.length) :
    envUpdateFile st P F S =
      Except.ok (envCreateFile st P
        (String.mk (T.data.take S.start ++ F.data ++
          T.data.drop (S.start + S.length)))) := by
  have hcont : st.fileNames.contains P = true :=
    List.contains_iff_exists_mem_beq.mpr ⟨P, hmem, by simp⟩
  have hsnap : getScriptSnapshot st P = some T := by
    simp [getScriptSnapshot, sysReadFile, hget, hne]
  have hprog : programSourceFile st P = some ⟨P, T⟩ := by
    simp [programSourceFile, hcont, hsnap, hmem]
  have htext : jsSliceTo T S.start ++ F ++ jsSliceFrom T (S.start + S.length) =
      String.mk (T.data.take S.start ++ F.data ++
        T.data.drop (S.start + S.length)) := by
    apply String.ext
    simp [jsSliceTo, jsSliceFrom]
  simp only [envUpdateFile, hprog, tsUpdateSourceFile, envCreateFile_eq,
    tsCreateSourceFile]
  rw [htext]

/-- Witness for C1: the spec's scenario.  After `createFile "/a.ts"
"let x = 1;"`, the call `updateFile "/a.ts" "2" (start 8, length 1)`
coincides with `createFile` of the splice, and the stored content becomes
`"let x = 2;"`. -/
theorem claim1_witness :
    envUpdateFile (envCreateFile (initEnv [] []) "/a.ts" "let x = 1;")
        "/a.ts" "2" ⟨8, 1⟩ =
      Except.ok (envCreateFile (envCreateFile (initEnv [] []) "/a.ts" "let x = 1;")
        "/a.ts"
        (String.mk (("let x = 1;" : String).data.take 8 ++
          ("2" : String).data ++ ("let x = 1;" : String).data.drop 9)))
    ∧ mapGet (envCreateFile (envCreateFile (initEnv [] []) "/a.ts" "let x = 1;")
        "/a.ts"
        (String.mk (("let x = 1;" : String).data.take 8 ++
          ("2" : String).data ++ ("let x = 1;" : String).data.drop 9))).files
        "/a.ts" = some "let x = 2;" :=
  ⟨claim1_incremental_patch_equivalence
      (envCreateFile (initEnv [] []) "/a.ts" "let x = 1;")
      "/a.ts" "let x = 1;" "2" ⟨8, 1⟩ (by decide) (by decide) (by decide)
      (by decide),
    by decide⟩

/-- Counterexample for C1 as stated: with prior stored content `T = ""`
(and span `(0, 0)`, within bounds), `updateFile` throws — the engine's
program drops a file whose snapshot is unavailable, and the snapshot of
empty content is unavailable — leaving `""` stored, while `createFile` of
the splice stores `"x"`; the final stored contents differ. -/
theorem claim1_counterexample :
    envUpdateFile (envCreateFile (initEnv [] []) "/a.ts" "") "/a.ts" "x" ⟨0, 0⟩ =
      Except.error updateMissingMsg
    ∧ mapGet (envCreateFile (envCreateFile (initEnv [] []) "/a.ts" "") "/a.ts"
        (String.mk ((("" : String).data.take 0) ++ ("x" : String).data ++
          ("" : String).data.drop 0))).files "/a.ts" = some "x"
    ∧ mapGet (envCreateFile (initEnv [] []) "/a.ts" "").files "/a.ts" =
        some "" := by
  refine ⟨rfl, by decide, by decide⟩

/-- C2 (corrected: only nonempty content yields a snapshot).  After the
facade's `createFile P C`, the system's `readFile P` returns `C` — for
every `C`, the empty string included — but `getScriptSnapshot P` returns
a snapshot whose text is `C` only when `C` is nonempty; for `C = ""` the
JavaScript truthiness test `if (contents)` makes it return missing. -/
theorem claim2_create_then_read (st : EnvState) (P C : String) :
    sysReadFile (envCreateFile st P C).files P = some C
    ∧ (C ≠ "" → getScriptSnapshot (envCreateFile st P C) P = some C)
    ∧ (C = "" → getScriptSnapshot (envCreateFile st P C) P = none) := by
  refine ⟨?_, ?_, ?_⟩
  · simp only [sysReadFile, envCreateFile_eq, lsUpdateFile_files]
    exact mapGet_mapSet_self _ _ _
  · intro hC
    simp only [getScriptSnapshot, sysReadFile, envCreateFile_eq,
      lsUpdateFile_files]
    rw [mapGet_mapSet_self]
    simp [hC]
  · intro hC
    simp only [getScriptSnapshot, sysReadFile, envCreateFile_eq,
      lsUpdateFile_files]
    rw [mapGet_mapSet_self]
    simp [hC]

/-- Witness for C2 at nonempty content. -/
theorem claim2_witness :
    sysReadFile (envCreateFile (initEnv [] []) "/a.ts" "abc").files "/a.ts" =
      some "abc"
    ∧ getScriptSnapshot (envCreateFile (initEnv [] []) "/a.ts" "abc") "/a.ts" =
      some "abc" :=
  ⟨(claim2_create_then_read (initEnv [] []) "/a.ts" "abc").1,
    (claim2_create_then_read (initEnv [] []) "/a.ts" "abc").2.1 (by decide)⟩

/-- Counterexample for C2 as stated: after `createFile "/a.ts" ""`,
`readFile` does return `some ""` but `getScriptSnapshot` returns missing,
not a snapshot whose text is `""`. -/
theorem claim2_counterexample :
    sysReadFile (envCreateFile (initEnv [] []) "/a.ts" "").files "/a.ts" =
      some ""
    ∧ getScriptSnapshot (envCreateFile (initEnv [] []) "/a.ts" "") "/a.ts" =
      none := by
  refine ⟨by decide, rfl⟩

/-- C3 (confirmed).  The project version starts at the construction
baseline and increases by exactly one on every mutating facade operation:
`createFile` always, and `updateFile` whenever it succeeds (both route
through the host's `updateFile`).  Hence the `getProjectVersion` tokens
observed after each of `N` consecutive `createFile` calls are exactly the
decimal tokens of `v0+1, …, v0+N` — pairwise distinct and ordered — and
the counter never decreases across any sequence of facade operations. -/
theorem claim3_project_version_monotone (st : EnvState)
    (calls : List (String × String)) (ops : List EnvOp) :
    (∀ p c, (envCreateFile st p c).projectVersion = st.projectVersion + 1)
    ∧ (∀ p c sp st', envUpdateFile st p c sp = Except.ok st' →
        st'.projectVersion = st.projectVersion + 1)
    ∧ observedTokens st calls =
        (List.range calls.length).map
          (fun i => Nat.repr (st.projectVersion + i + 1))
    ∧ (observedTokens st calls).Nodup
    ∧ st.projectVersion ≤ (applyOps st ops).projectVersion := by
  refine ⟨?_, ?_, observedTokens_formula calls st, ?_, applyOps_projectVersion_mono ops st⟩
  · intro p c
    rw [envCreateFile_eq, lsUpdateFile_projectVersion]
  · intro p c sp st' hu
    obtain ⟨t, rfl⟩ := envUpdateFile_ok_shape st p c sp st' hu
    rw [lsUpdateFile_projectVersion]
  · rw [observedTokens_formula calls st]
    refine List.Nodup.map ?_ (List.nodup_range _)
    intro a b hab
    have := natRepr_injective _ _ hab
    omega

/-- Witness for C3: two creations from a fresh environment observe the
distinct ordered tokens `"1"` and `"2"`, and a successful incremental
update bumps the version by exactly one. -/
theorem claim3_witness :
    observedTokens (initEnv [] []) [("/a.ts", "a"), ("/b.ts", "b")] =
      ["1", "2"]
    ∧ (observedTokens (initEnv [] [])
        [("/a.ts", "a"), ("/b.ts", "b")]).Nodup
    ∧ (lsUpdateFile (envCreateFile (initEnv [] []) "/a.ts" "hi")
        ⟨"/a.ts", "ci"⟩).projectVersion = 2 := by
  refine ⟨?_, ?_, ?_⟩
  · rw [(claim3_project_version_monotone (initEnv [] [])
      [("/a.ts", "a"), ("/b.ts", "b")] []).2.2.1]
    rfl
  · exact (claim3_project_version_monotone (initEnv [] [])
      [("/a.ts", "a"), ("/b.ts", "b")] []).2.2.2.1
  · exact (claim3_project_version_monotone
      (envCreateFile (initEnv [] []) "/a.ts" "hi") [] []).2.1
      "/a.ts" "c" ⟨0, 1⟩ _ rfl

/-- C4 (corrected: the precondition is that the engine's program has no
source file for the path, not that the path was never created through the
facade — a root file present in the store is patchable without a prior
`createFile`).  When the program has no source file for `P`, the facade's
`updateFile` raises the dereference error, and the state — store,
parsed-unit cache, version counters and root list — is exactly as before
the call. -/
theorem claim4_update_missing_error (st : EnvState) (P F : String)
    (S : TextSpan) (h : programSourceFile st P = none) :
    envUpdateFile st P F S = Except.error updateMissingMsg
    ∧ applyOp st (.update P F S) = st := by
  have h1 : envUpdateFile st P F S = Except.error updateMissingMsg := by
    unfold envUpdateFile
    rw [h]
  exact ⟨h1, by simp [applyOp, h1]⟩

/-- Witness for C4: updating a path absent from a fresh environment
raises the error and leaves the state untouched. -/
theorem claim4_witness :
    envUpdateFile (initEnv [] []) "/a.ts" "x" ⟨0, 1⟩ =
      Except.error updateMissingMsg
    ∧ applyOp (initEnv [] []) (.update "/a.ts" "x" ⟨0, 1⟩) = initEnv [] [] :=
  claim4_update_missing_error (initEnv [] []) "/a.ts" "x" ⟨0, 1⟩ rfl

/-- Counterexample for C4 as stated: `"/a.ts"` is never created through
the facade, yet — being a root file with readable stored content —
`updateFile` succeeds and rewrites the store instead of raising. -/
theorem claim4_counterexample :
    envUpdateFile (initEnv [("/a.ts", "x")] ["/a.ts"]) "/a.ts" "y" ⟨0, 1⟩ =
      Except.ok (lsUpdateFile (initEnv [("/a.ts", "x")] ["/a.ts"])
        ⟨"/a.ts", "y"⟩)
    ∧ mapGet (applyOp (initEnv [("/a.ts", "x")] ["/a.ts"])
        (.update "/a.ts" "y" ⟨0, 1⟩)).files "/a.ts" = some "y" := by
  refine ⟨rfl, by decide⟩

/-- C5 (confirmed).  A path never targeted by any facade call reports the
baseline sentinel token `"0"` through `getScriptVersion`, and still does
after any number of mutating calls on other paths. -/
theorem claim5_untouched_version_baseline
    (initialFiles : List (String × String)) (rootFiles : List String)
    (P : String) (ops : List EnvOp) (h : ∀ op ∈ ops, op.path ≠ P) :
    getScriptVersion (applyOps (initEnv initialFiles rootFiles) ops) P =
      "0" := by
  suffices haux : ∀ (ops' : List EnvOp) (st : EnvState),
      (∀ op ∈ ops', op.path ≠ P) → mapGet st.fileVersions P = none →
      mapGet (applyOps st ops').fileVersions P = none by
    have hfin := haux ops (initEnv initialFiles rootFiles) h rfl
    simp [getScriptVersion, hfin]
  intro ops'
  induction ops' with
  | nil => intro st h0 hn; exact hn
  | cons op ops' ih =>
    intro st h0 hn
    exact ih (applyOp st op) (fun o ho => h0 o (List.mem_cons_of_mem _ ho))
      (applyOp_fileVersions_none st op P (h0 op (List.mem_cons_self _ _)) hn)

/-- Witness for C5: `"/a.ts"` reports `"0"` after three mutations of
other paths. -/
theorem claim5_witness :
    getScriptVersion
      (applyOps (initEnv [] [])
        [.create "/b.ts" "x", .create "/c.ts" "y",
          .update "/b.ts" "z" ⟨0, 1⟩]) "/a.ts" = "0" :=
  claim5_untouched_version_baseline [] [] "/a.ts"
    [.create "/b.ts" "x", .create "/c.ts" "y", .update "/b.ts" "z" ⟨0, 1⟩]
    (by decide)

/-- C6 (corrected: freedom from duplicates additionally needs the root
list passed at construction to be duplicate-free, which nothing in the
code enforces).  From any state whose root list has no duplicates, every
facade operation preserves that; membership is monotonic — a present path
is never removed — and every path passed through `createFile`, or through
a succeeding `updateFile`, is a member afterwards. -/
theorem claim6_rootlist_nodup_monotone (st : EnvState) (op : EnvOp)
    (h : st.fileNames.Nodup) :
    (applyOp st op).fileNames.Nodup
    ∧ (∀ p, p ∈ st.fileNames → p ∈ (applyOp st op).fileNames)
    ∧ (∀ p c, p ∈ (envCreateFile st p c).fileNames)
    ∧ (∀ p c sp st', envUpdateFile st p c sp = Except.ok st' →
        p ∈ st'.fileNames) := by
  refine ⟨?_, fun p hp => applyOp_fileNames_mono st op p hp, ?_, ?_⟩
  · cases op with
    | create p c => exact lsUpdateFile_fileNames_nodup st _ h
    | update p c s =>
      simp only [applyOp]
      cases hu : envUpdateFile st p c s with
      | error e => exact h
      | ok st' =>
        obtain ⟨t, rfl⟩ := envUpdateFile_ok_shape st p c s st' hu
        exact lsUpdateFile_fileNames_nodup st _ h
  · intro p c
    rw [envCreateFile_eq]
    exact lsUpdateFile_fileNames_mem st ⟨p, c⟩
  · intro p c sp st' hu
    obtain ⟨t, rfl⟩ := envUpdateFile_ok_shape st p c sp st' hu
    exact lsUpdateFile_fileNames_mem st ⟨p, t⟩

/-- Witness for C6 on a duplicate-free root list. -/
theorem claim6_witness :
    (applyOp (initEnv [] ["/r.ts"]) (.create "/s.ts" "x")).fileNames.Nodup
    ∧ "/r.ts" ∈
      (applyOp (initEnv [] ["/r.ts"]) (.create "/s.ts" "x")).fileNames := by
  refine ⟨(claim6_rootlist_nodup_monotone (initEnv [] ["/r.ts"])
      (.create "/s.ts" "x") (by decide)).1,
    (claim6_rootlist_nodup_monotone (initEnv [] ["/r.ts"])
      (.create "/s.ts" "x") (by decide)).2.1 "/r.ts" (by decide)⟩

/-- Counterexample for C6 as stated: constructing the host with a
duplicated root list is a reachable state whose root-file list holds a
duplicate path — the constructor copies `rootFiles` verbatim. -/
theorem claim6_counterexample :
    ¬ (initEnv [] ["/a.ts", "/a.ts"]).fileNames.Nodup := by
  decide

/-- C7 (confirmed).  `directoryExists D` is true exactly when some stored
path has `D` as a literal string prefix, and `readDirectory` returns
exactly the stored paths for the root `"/"` and the empty sequence for
any other argument. -/
theorem claim7_directory_semantics (files : FileStore) (D : String) :
    (sysDirectoryExists files D = true ↔
      ∃ p ∈ mapKeys files, D.data <+: p.data)
    ∧ sysReadDirectory files "/" = mapKeys files
    ∧ (D ≠ "/" → sysReadDirectory files D = []) := by
  refine ⟨?_, by simp [sysReadDirectory], fun hD => by simp [sysReadDirectory, hD]⟩
  unfold sysDirectoryExists jsStartsWith
  rw [List.any_eq_true]
  constructor
  · rintro ⟨p, hp, hpre⟩
    exact ⟨p, hp, by simpa using hpre⟩
  · rintro ⟨p, hp, hpre⟩
    exact ⟨p, hp, by simpa using hpre⟩

/-- Witness for C7: a prefix hit, and a non-root listing. -/
theorem claim7_witness :
    sysDirectoryExists [("/src/a.ts", "x"), ("/b.ts", "y")] "/src" = true
    ∧ sysReadDirectory [("/src/a.ts", "x"), ("/b.ts", "y")] "/src" = [] := by
  refine ⟨(claim7_directory_semantics [("/src/a.ts", "x"), ("/b.ts", "y")]
      "/src").1.mpr ⟨"/src/a.ts", by decide, ⟨("/a.ts" : String).data, rfl⟩⟩,
    (claim7_directory_semantics [("/src/a.ts", "x"), ("/b.ts", "y")]
      "/src").2.2 (by decide)⟩

/-- C8 (confirmed).  For every target with at least one matching catalog
entry, `knownLibFilesForTarget` returns the catalog prefix `files[0..i]`
where `i` is the index of the last catalog file whose name starts with
`lib.<target>`. -/
theorem claim8_lib_resolver (target : ScriptTarget)
    (h : knownLibFiles.filter
        (fun f => jsStartsWith f ("lib." ++ scriptTargetLowerName target)) ≠
      []) :
    ∃ i, i < knownLibFiles.length
      ∧ jsStartsWith (knownLibFiles.getD i "")
          ("lib." ++ scriptTargetLowerName target) = true
      ∧ (∀ j, j < knownLibFiles.length → i < j →
          jsStartsWith (knownLibFiles.getD j "")
            ("lib." ++ scriptTargetLowerName target) = false)
      ∧ knownLibFilesForTarget target = knownLibFiles.take (i + 1) := by
  cases target with
  | es3 => exact absurd (by decide) h
  | es5 => exact ⟨3, by decide, by decide, by decide, by decide⟩
  | es2015 => exact ⟨14, by decide, by decide, by decide, by decide⟩
  | es2016 => exact ⟨17, by decide, by decide, by decide, by decide⟩
  | es2017 => exact ⟨24, by decide, by decide, by decide, by decide⟩
  | es2018 => exact ⟨31, by decide, by decide, by decide, by decide⟩
  | es2019 => exact ⟨37, by decide, by decide, by decide, by decide⟩
  | es2020 => exact ⟨41, by decide, by decide, by decide, by decide⟩
  | esnext => exact ⟨48, by decide, by decide, by decide, by decide⟩

/-- Witness for C8 at target ES2015: the resolver truncates at the last
`lib.es2015…` entry. -/
theorem claim8_witness :
    ∃ i, i < knownLibFiles.length
      ∧ jsStartsWith (knownLibFiles.getD i "")
          ("lib." ++ scriptTargetLowerName .es2015) = true
      ∧ (∀ j, j < knownLibFiles.length → i < j →
          jsStartsWith (knownLibFiles.getD j "")
            ("lib." ++ scriptTargetLowerName .es2015) = false)
      ∧ knownLibFilesForTarget .es2015 = knownLibFiles.take (i + 1) :=
  claim8_lib_resolver .es2015 (by decide)

/-- C9 (confirmed).  Each deliberately-unsupported system operation —
`createDirectory`, `exit`, `write`, `getExecutingFilePath` — always fails
with the `notImplemented` error naming that operation, for every store
state, and produces no successor store (the throw happens before anything
touches the store). -/
theorem claim9_unsupported_ops (files : FileStore) :
    sysCreateDirectory files =
      Except.error (notImplementedMsg "createDirectory")
    ∧ sysExit files = Except.error (notImplementedMsg "exit")
    ∧ sysWrite files = Except.error (notImplementedMsg "write")
    ∧ sysGetExecutingFilePath files =
      Except.error (notImplementedMsg "getExecutingFilePath")
    ∧ (∀ m : String, ∃ before after,
        notImplementedMsg m = before ++ m ++ after) :=
  ⟨rfl, rfl, rfl, rfl,
    fun m => ⟨"Method '", "' is not implemented.", rfl⟩⟩

/-- C10 (confirmed).  `createSystem` takes a private copy of its input
map: writes through the returned system never change the caller's map
object, the system's reads initially see exactly the copied contents, and
arbitrary external mutation of the caller's map object is never observed
through the system's `readFile`, `fileExists`, `directoryExists` or
`readDirectory`. -/
theorem claim10_private_copy (h : Heap) (caller : Nat)
    (hv : caller < h.maps.length) (writes : List (String × String))
    (mutated : List (String × String)) (k d : String) :
    Heap.get (createSystem h caller).1 caller = h.get caller
    ∧ Heap.get (heapWriteAll (createSystem h caller).1
        (createSystem h caller).2 writes) caller = h.get caller
    ∧ heapReadFile (createSystem h caller).1 (createSystem h caller).2 k =
        mapGet (h.get caller) k
    ∧ heapReadFile (heapMutate (createSystem h caller).1 caller mutated)
        (createSystem h caller).2 k =
        heapReadFile (createSystem h caller).1 (createSystem h caller).2 k
    ∧ heapFileExists (heapMutate (createSystem h caller).1 caller mutated)
        (createSystem h caller).2 k =
        heapFileExists (createSystem h caller).1 (createSystem h caller).2 k
    ∧ heapDirectoryExists (heapMutate (createSystem h caller).1 caller mutated)
        (createSystem h caller).2 d =
        heapDirectoryExists (createSystem h caller).1
          (createSystem h caller).2 d
    ∧ heapReadDirectory (heapMutate (createSystem h caller).1 caller mutated)
        (createSystem h caller).2 d =
        heapReadDirectory (createSystem h caller).1
          (createSystem h caller).2 d := by
  have hcne : caller ≠ (createSystem h caller).2.filesRef := by
    show caller ≠ h.maps.length
    omega
  have hget1 : Heap.get (createSystem h caller).1 caller = h.get caller := by
    show Heap.get ⟨h.maps ++ [Heap.get h caller]⟩ caller = Heap.get h caller
    unfold Heap.get
    simp only [List.getD_eq_getElem?_getD]
    rw [List.getElem?_append_left hv]
  have hgetref : Heap.get (createSystem h caller).1
      (createSystem h caller).2.filesRef = h.get caller := by
    show Heap.get ⟨h.maps ++ [Heap.get h caller]⟩ h.maps.length =
      Heap.get h caller
    unfold Heap.get
    simp only [List.getD_eq_getElem?_getD]
    rw [List.getElem?_concat_length]
    rfl
  have hmut : Heap.get (heapMutate (createSystem h caller).1 caller mutated)
      (createSystem h caller).2.filesRef =
      Heap.get (createSystem h caller).1 (createSystem h caller).2.filesRef := by
    unfold heapMutate
    exact heapGet_put_ne _ _ _ _ (Ne.symm hcne)
  refine ⟨hget1, ?_, ?_, ?_, ?_, ?_, ?_⟩
  · rw [heapWriteAll_get_ne (createSystem h caller).2 caller hcne writes
      (createSystem h caller).1, hget1]
  · unfold heapReadFile
    rw [hgetref]
  · unfold heapReadFile
    rw [hmut]
  · unfold heapFileExists
    rw [hmut]
  · unfold heapDirectoryExists
    rw [hmut]
  · unfold heapReadDirectory
    rw [hmut]

/-- Witness for C10 on a one-map heap: a write through the system leaves
the caller's map unchanged, and clearing the caller's map is invisible to
the system's reads. -/
theorem claim10_witness :
    Heap.get (heapWriteAll (createSystem ⟨[[("/a.ts", "1")]]⟩ 0).1
        (createSystem ⟨[[("/a.ts", "1")]]⟩ 0).2 [("/b.ts", "2")]) 0 =
      Heap.get ⟨[[("/a.ts", "1")]]⟩ 0
    ∧ heapReadFile (heapMutate (createSystem ⟨[[("/a.ts", "1")]]⟩ 0).1 0 [])
        (createSystem ⟨[[("/a.ts", "1")]]⟩ 0).2 "/a.ts" =
        heapReadFile (createSystem ⟨[[("/a.ts", "1")]]⟩ 0).1
          (createSystem ⟨[[("/a.ts", "1")]]⟩ 0).2 "/a.ts" := by
  refine ⟨(claim10_private_copy ⟨[[("/a.ts", "1")]]⟩ 0 (by decide)
      [("/b.ts", "2")] [] "/a.ts" "/").2.1,
    (claim10_private_copy ⟨[[("/a.ts", "1")]]⟩ 0 (by decide)
      [("/b.ts", "2")] [] "/a.ts" "/").2.2.2.1⟩

end TsVfs
